import Mathlib

/-!
Verification of the Blumenboss bookkeeping application core
(`src/App.tsx` and its types module).

The embedding models the application's pure logic:

* JavaScript numbers are modeled as exact rationals (`ℚ`); every amount in
  the application originates from `parseFloat` of decimal user input.
* JavaScript strings are modeled as `String`; the character-level string
  operations used by the code (`split`, `join`, `trim`, `replace`,
  `slice`, lexicographic `<`) are defined below on the underlying
  character lists, matching the JavaScript semantics on the inputs the
  application handles.
* The two browser enumerations `TransactionType` and `PaymentMethod` are
  closed inductive types when a value is statically typed in the source;
  the CSV import path, which stores unchecked strings at runtime
  (TypeScript `as` casts erase no data), is modeled on a raw record type
  whose `type` and `paymentMethod` fields are strings.
* Environment-supplied functions (the local-timezone calendar-day of a
  date string, date formatting, `Number.prototype.toString` and
  `parseFloat` for numbers) are parameters of the definitions that use
  them; concrete instantiations are provided for concrete examples.
-/

-- === TYPES (src/types.ts and the enums in src/App.tsx) ===

inductive TransactionType where
  | INCOME
  | EXPENSE
deriving DecidableEq, Repr

inductive PaymentMethod where
  | CASH
  | BANK
deriving DecidableEq, Repr

structure Transaction where
  id : String
  description : String
  amount : ℚ
  type : TransactionType
  date : String
  paymentMethod : PaymentMethod
deriving DecidableEq, Repr

inductive DebtStatus where
  | UNPAID
  | PAID
deriving DecidableEq, Repr

structure Debt where
  id : String
  clientName : String
  description : String
  amount : ℚ
  status : DebtStatus
  date : String
  notes : Option String
deriving DecidableEq, Repr

/-- The string values of the TypeScript enum `TransactionType`. -/
def typeToString : TransactionType → String
  | TransactionType.INCOME => "INCOME"
  | TransactionType.EXPENSE => "EXPENSE"

/-- The string values of the TypeScript enum `PaymentMethod`. -/
def pmToString : PaymentMethod → String
  | PaymentMethod.CASH => "CASH"
  | PaymentMethod.BANK => "BANK"

-- === NUMERAL NORMALIZATION (convertToEnglishNumerals) ===

/-- The character table of `convertToEnglishNumerals`: each Arabic-Indic
(U+0660–U+0669) or Extended-Arabic-Indic (U+06F0–U+06F9) digit is replaced
by the corresponding ASCII digit; every other character is unchanged.  The
source applies a regex over exactly those two ranges, so the replacement
is character-wise. -/
def numeralMapChar (c : Char) : Char :=
  if c = '٠' then '0' else if c = '١' then '1' else if c = '٢' then '2'
  else if c = '٣' then '3' else if c = '٤' then '4' else if c = '٥' then '5'
  else if c = '٦' then '6' else if c = '٧' then '7' else if c = '٨' then '8'
  else if c = '٩' then '9'
  else if c = '۰' then '0' else if c = '۱' then '1' else if c = '۲' then '2'
  else if c = '۳' then '3' else if c = '۴' then '4' else if c = '۵' then '5'
  else if c = '۶' then '6' else if c = '۷' then '7' else if c = '۸' then '8'
  else if c = '۹' then '9'
  else c

/-- `convertToEnglishNumerals` from `src/App.tsx`. -/
def convertToEnglishNumerals (s : String) : String :=
  String.mk (s.data.map numeralMapChar)

/-- Character-wise lower-casing, modeling `String.prototype.toLowerCase`
on the application's data. -/
def jsToLower (s : String) : String :=
  String.mk (s.data.map Char.toLower)

/-- Whether `pat` starts the character list `l`. -/
def charListStarts : List Char → List Char → Bool
  | [], _ => true
  | _ :: _, [] => false
  | a :: as, b :: bs => a == b && charListStarts as bs

/-- Whether `pat` occurs contiguously in the character list `l`. -/
def charListSub (pat : List Char) : List Char → Bool
  | [] => pat.isEmpty
  | c :: rest => charListStarts pat (c :: rest) || charListSub pat rest

/-- `a.includes b` on JavaScript strings: `b` occurs contiguously in `a`. -/
def jsIncludes (a b : String) : Bool :=
  charListSub b.data a.data

-- === BALANCES (cashBalance / bankBalance / totalBalance useMemo) ===

/-- One step of the `transactions.forEach` accumulation in the balance
`useMemo`: the accumulator is `(cashInc, cashExp, bankInc, bankExp)`.
The source branches `if (t.paymentMethod === CASH) ... else // BANK`,
which on the closed enumeration is the match below. -/
def balanceFold (acc : ℚ × ℚ × ℚ × ℚ) (t : Transaction) : ℚ × ℚ × ℚ × ℚ :=
  match t.paymentMethod, t.type with
  | PaymentMethod.CASH, TransactionType.INCOME =>
      (acc.1 + t.amount, acc.2.1, acc.2.2.1, acc.2.2.2)
  | PaymentMethod.CASH, TransactionType.EXPENSE =>
      (acc.1, acc.2.1 + t.amount, acc.2.2.1, acc.2.2.2)
  | PaymentMethod.BANK, TransactionType.INCOME =>
      (acc.1, acc.2.1, acc.2.2.1 + t.amount, acc.2.2.2)
  | PaymentMethod.BANK, TransactionType.EXPENSE =>
      (acc.1, acc.2.1, acc.2.2.1, acc.2.2.2 + t.amount)

/-- The `(cashInc, cashExp, bankInc, bankExp)` totals of the balance
`useMemo` in `src/App.tsx`. -/
def balanceTotals (transactions : List Transaction) : ℚ × ℚ × ℚ × ℚ :=
  transactions.foldl balanceFold (0, 0, 0, 0)

/-- `cashBalance = cashInc - cashExp`. -/
def cashBalance (transactions : List Transaction) : ℚ :=
  (balanceTotals transactions).1 - (balanceTotals transactions).2.1

/-- `bankBalance = bankInc - bankExp`. -/
def bankBalance (transactions : List Transaction) : ℚ :=
  (balanceTotals transactions).2.2.1 - (balanceTotals transactions).2.2.2

/-- `totalBalance = (cashInc + bankInc) - (cashExp + bankExp)`. -/
def totalBalance (transactions : List Transaction) : ℚ :=
  ((balanceTotals transactions).1 + (balanceTotals transactions).2.2.1)
    - ((balanceTotals transactions).2.1 + (balanceTotals transactions).2.2.2)

/-- The signed amount of a transaction: income counts positive, expense
negative. -/
def signedAmount (t : Transaction) : ℚ :=
  match t.type with
  | TransactionType.INCOME => t.amount
  | TransactionType.EXPENSE => -t.amount

/-- Sum of `f` over a transaction list. -/
def sumBy (f : Transaction → ℚ) (ts : List Transaction) : ℚ :=
  (ts.map f).sum

/-- Sum of amounts over the transactions in one (payment method,
transaction type) cell of the partition. -/
def partSum (pm : PaymentMethod) (ty : TransactionType)
    (ts : List Transaction) : ℚ :=
  sumBy Transaction.amount
    (ts.filter (fun t => decide (t.paymentMethod = pm) && decide (t.type = ty)))

lemma foldl_balanceFold (ts : List Transaction) : ∀ acc : ℚ × ℚ × ℚ × ℚ,
    ts.foldl balanceFold acc =
      (acc.1 + partSum PaymentMethod.CASH TransactionType.INCOME ts,
       acc.2.1 + partSum PaymentMethod.CASH TransactionType.EXPENSE ts,
       acc.2.2.1 + partSum PaymentMethod.BANK TransactionType.INCOME ts,
       acc.2.2.2 + partSum PaymentMethod.BANK TransactionType.EXPENSE ts) := by
  induction ts with
  | nil => intro acc; simp [partSum, sumBy]
  | cons t ts ih =>
    intro acc
    obtain ⟨i, de, a, ty, da, pm⟩ := t
    cases pm <;> cases ty <;>
      simp [List.foldl_cons, balanceFold, ih, partSum, sumBy,
        List.filter_cons, Prod.ext_iff] <;>
      and_intros <;> ring

lemma partSum_signed (pm : PaymentMethod) (ts : List Transaction) :
    sumBy signedAmount (ts.filter (fun t => decide (t.paymentMethod = pm)))
      = partSum pm TransactionType.INCOME ts
        - partSum pm TransactionType.EXPENSE ts := by
  induction ts with
  | nil => simp [partSum, sumBy]
  | cons t ts ih =>
    obtain ⟨i, de, a, ty, da, pm'⟩ := t
    by_cases h : pm' = pm <;> cases ty <;>
      simp [partSum, sumBy, List.filter_cons, h, signedAmount] at ih ⊢ <;>
      rw [ih] <;> ring

lemma sum_signed_all (ts : List Transaction) :
    sumBy signedAmount ts =
      (partSum PaymentMethod.CASH TransactionType.INCOME ts
        - partSum PaymentMethod.CASH TransactionType.EXPENSE ts)
      + (partSum PaymentMethod.BANK TransactionType.INCOME ts
        - partSum PaymentMethod.BANK TransactionType.EXPENSE ts) := by
  induction ts with
  | nil => simp [partSum, sumBy]
  | cons t ts ih =>
    obtain ⟨i, de, a, ty, da, pm⟩ := t
    cases pm <;> cases ty <;>
      simp [partSum, sumBy, List.filter_cons, signedAmount] at ih ⊢ <;>
      rw [ih] <;> ring

/-- C1: for every transaction list, `cashBalance` is the sum of signed
amounts (income positive, expense negative) over the transactions paid in
cash, `bankBalance` likewise over the transactions paid by bank, and
`totalBalance` equals `cashBalance + bankBalance`, which equals the sum of
signed amounts over all transactions regardless of the partition. -/
theorem balances_partition_invariant (ts : List Transaction) :
    cashBalance ts = sumBy signedAmount
        (ts.filter (fun t => decide (t.paymentMethod = PaymentMethod.CASH)))
    ∧ bankBalance ts = sumBy signedAmount
        (ts.filter (fun t => decide (t.paymentMethod = PaymentMethod.BANK)))
    ∧ totalBalance ts = cashBalance ts + bankBalance ts
    ∧ totalBalance ts = sumBy signedAmount ts := by
  have h := foldl_balanceFold ts (0, 0, 0, 0)
  have hc := partSum_signed PaymentMethod.CASH ts
  have hb := partSum_signed PaymentMethod.BANK ts
  have ha := sum_signed_all ts
  unfold cashBalance bankBalance totalBalance balanceTotals
  rw [h]
  refine ⟨by rw [hc]; ring, by rw [hb]; ring, by ring, by rw [ha]; ring⟩

-- === FILTER ENGINE (filteredTransactions useMemo, handleClearFilters) ===

/-- JavaScript lexicographic string comparison (`<` on strings compares
code units; all strings compared by the application are ASCII dates). -/
def charListLt : List Char → List Char → Bool
  | [], [] => false
  | [], _ :: _ => true
  | _ :: _, [] => false
  | a :: as, b :: bs =>
      if a.toNat < b.toNat then true
      else if b.toNat < a.toNat then false
      else charListLt as bs

/-- `a < b` on JavaScript strings. -/
def jsStrLt (a b : String) : Bool :=
  charListLt a.data b.data

/-- `s.slice(0, n)` on a JavaScript string. -/
def jsSlice (n : Nat) (s : String) : String :=
  String.mk (s.data.take n)

/-- The main view selector (`activeView` state). -/
inductive ActiveView where
  | transactions
  | debts
  | reports
deriving DecidableEq, Repr

/-- The type filter setting: `'all' | TransactionType`. -/
inductive FilterTypeSetting where
  | all
  | only (ty : TransactionType)
deriving DecidableEq, Repr

/-- The pieces of component state read by the `filteredTransactions`
`useMemo`. -/
structure FilterSettings where
  activeView : ActiveView
  activeAccountView : PaymentMethod
  searchTerm : String
  filterType : FilterTypeSetting
  startDate : String
  endDate : String
deriving DecidableEq, Repr

/-- The search test inside the second `.filter`:
`if (englishSearchTerm && !convert(t.description).toLowerCase().includes(englishSearchTerm.toLowerCase())) return false`.
`searchMatches` is `true` exactly when that guard does not reject. -/
def searchMatches (searchTerm description : String) : Bool :=
  let englishSearchTerm := convertToEnglishNumerals searchTerm
  !(englishSearchTerm ≠ "" &&
    !(jsIncludes (jsToLower (convertToEnglishNumerals description))
        (jsToLower englishSearchTerm)))

/-- The predicate of the second `.filter` of `filteredTransactions`:
search, then type filter, then inclusive date-range bounds on
`t.date.slice(0, 10)`. -/
def transactionPasses (s : FilterSettings) (t : Transaction) : Bool :=
  if !searchMatches s.searchTerm t.description then false
  else if (match s.filterType with
           | FilterTypeSetting.all => false
           | FilterTypeSetting.only ty => decide (t.type ≠ ty)) then false
  else
    let transactionDate := jsSlice 10 t.date
    if s.startDate ≠ "" && jsStrLt transactionDate s.startDate then false
    else if s.endDate ≠ "" && jsStrLt s.endDate transactionDate then false
    else true

/-- The predicate of the first `.filter` of `filteredTransactions`: the
account scope applies only while the transactions view is active. -/
def accountScopePasses (s : FilterSettings) (t : Transaction) : Bool :=
  if s.activeView = ActiveView.transactions
  then decide (t.paymentMethod = s.activeAccountView)
  else true

/-- The `filteredTransactions` `useMemo` from `src/App.tsx`. -/
def filteredTransactions (s : FilterSettings) (transactions : List Transaction) :
    List Transaction :=
  (transactions.filter (accountScopePasses s)).filter (transactionPasses s)

/-- `handleClearFilters`: resets the search term, type filter and date
bounds; the active view and account view are untouched. -/
def clearFilters (s : FilterSettings) : FilterSettings :=
  { s with searchTerm := "", filterType := FilterTypeSetting.all,
           startDate := "", endDate := "" }

-- === TEMPORAL GROUPING (groupedTransactions useMemo) ===

/-- Day-level embedding of the `Date` manipulation in `getStartOfWeek`:
a date (after `setHours(0,0,0,0)`) is its local calendar day counted from
the Unix epoch (1970-01-01, a Thursday), so `getDay()` is
`(d + 4) mod 7` with `0 = Sunday, ..., 6 = Saturday`. -/
def jsGetDay (d : Int) : Int :=
  (d + 4) % 7

/-- `getStartOfWeek` from the `groupedTransactions` `useMemo`: the source
computes `diff = d.getDate() - day + (day === 0 ? -6 : 1)` and
`setDate(diff)`, which shifts the date by `-day + (day === 0 ? -6 : 1)`
days (`setDate` carries over month boundaries). -/
def getStartOfWeek (d : Int) : Int :=
  d - jsGetDay d + (if jsGetDay d = 0 then -6 else 1)

/-- The grouping mode state: `'daily' | 'weekly'`. -/
inductive GroupingMode where
  | daily
  | weekly
deriving DecidableEq, Repr

/-- The bucket key of one transaction.  `localDay` is the
environment-supplied map from a date string to its local calendar day
(`new Date(string)` plus the local timezone), and `fmt` is the
environment's `toLocaleDateString('en-CA')` rendering of a day. -/
def bucketKey (localDay : String → Int) (fmt : Int → String) :
    GroupingMode → Transaction → String
  | GroupingMode.daily, t => fmt (localDay t.date)
  | GroupingMode.weekly, t => fmt (getStartOfWeek (localDay t.date))

/-- One step of the `reduce` in `groupedTransactions`: push `t` onto the
bucket of `k`, creating the bucket at the end if absent (JavaScript
object keys of this shape preserve insertion order). -/
def groupInsert (k : String) (t : Transaction) :
    List (String × List Transaction) → List (String × List Transaction)
  | [] => [(k, [t])]
  | (k', l) :: rest =>
      if k' = k then (k', l ++ [t]) :: rest
      else (k', l) :: groupInsert k t rest

/-- The `groupedTransactions` `useMemo`: buckets the (already filtered)
transaction list by its daily or weekly key. -/
def groupedTransactions (localDay : String → Int) (fmt : Int → String)
    (mode : GroupingMode) (ts : List Transaction) :
    List (String × List Transaction) :=
  ts.foldl (fun acc t => groupInsert (bucketKey localDay fmt mode t) t acc) []

-- === DEBT SETTLEMENT AND DELETION ===

/-- The income transaction built by `handleConfirmSettleDebt`; `newId`
and `nowDate` stand for the `new Date()` timestamp values. -/
def settleTransaction (newId nowDate : String) (debt : Debt)
    (settleMethod : PaymentMethod) : Transaction :=
  { id := newId,
    description := "تسديد دين: " ++ debt.clientName ++ " - " ++ debt.description,
    amount := debt.amount,
    type := TransactionType.INCOME,
    date := nowDate,
    paymentMethod := settleMethod }

/-- `settleDebt(id, method)`: `handleSettleDebtRequest` looks the debt up
by id (`debts.find`) and, when found, `handleConfirmSettleDebt` prepends
the settlement income transaction and maps the debt list, marking every
debt with the found debt's id as `PAID`.  When no debt matches, neither
list changes. -/
def settleDebt (debtId : String) (settleMethod : PaymentMethod)
    (newId nowDate : String) (transactions : List Transaction)
    (debts : List Debt) : List Transaction × List Debt :=
  match debts.find? (fun d => decide (d.id = debtId)) with
  | none => (transactions, debts)
  | some debt =>
      (settleTransaction newId nowDate debt settleMethod :: transactions,
       debts.map (fun d =>
         if d.id = debt.id then { d with status := DebtStatus.PAID } else d))

/-- `totalUnpaidDebts` `useMemo`: `debts.filter(UNPAID).reduce(+amount, 0)`. -/
def totalUnpaidDebts (debts : List Debt) : ℚ :=
  (debts.filter (fun d => decide (d.status = DebtStatus.UNPAID))).foldl
    (fun sum d => sum + d.amount) 0

/-- `handleConfirmTransactionDelete`: removes the transactions whose id
equals the requested id; the debt list is not touched by this handler. -/
def deleteTransaction (deleteId : String) (transactions : List Transaction)
    (debts : List Debt) : List Transaction × List Debt :=
  (transactions.filter (fun t => decide (t.id ≠ deleteId)), debts)

-- === C8: WEEK-START KEY ===

/-- C8: for every date (as a local calendar day), `getStartOfWeek` is the
Monday-anchored start of that date's week: the date minus
`(weekday - 1) mod 7` days, where Sunday counts as weekday `7`; a Monday
maps to itself, a Sunday maps to the prior Monday, and the result is
always a Monday. -/
theorem getStartOfWeek_monday_anchor (d : Int) :
    getStartOfWeek d
        = d - ((if jsGetDay d = 0 then 7 else jsGetDay d) - 1) % 7
    ∧ (jsGetDay d = 1 → getStartOfWeek d = d)
    ∧ (jsGetDay d = 0 → getStartOfWeek d = d - 6)
    ∧ jsGetDay (getStartOfWeek d) = 1 := by
  unfold getStartOfWeek jsGetDay
  split_ifs <;> omega

/-- Witness for `getStartOfWeek_monday_anchor` at day 3 (1970-01-04, a
Sunday) and day 4 (1970-01-05, a Monday). -/
theorem getStartOfWeek_monday_anchor_witness :
    getStartOfWeek 3 = -3 ∧ getStartOfWeek 4 = 4 := by
  have h3 := getStartOfWeek_monday_anchor 3
  have h4 := getStartOfWeek_monday_anchor 4
  exact ⟨by rw [h3.2.2.1 (by decide)]; decide, h4.2.1 (by decide)⟩

-- === C2: GROUPING IS A PARTITION ===

lemma groupInsert_flatten (k : String) (t : Transaction)
    (g : List (String × List Transaction)) :
    List.Perm (((groupInsert k t g).map Prod.snd).flatten)
      ((g.map Prod.snd).flatten ++ [t]) := by
  induction g with
  | nil => simp [groupInsert]
  | cons p rest ih =>
    obtain ⟨k', l⟩ := p
    by_cases h : k' = k
    · simp only [groupInsert, if_pos h, List.map_cons, List.flatten_cons]
      rw [List.append_assoc, List.append_assoc]
      exact List.Perm.append_left l List.perm_append_comm
    · simp only [groupInsert, if_neg h, List.map_cons, List.flatten_cons]
      rw [List.append_assoc]
      exact List.Perm.append_left l ih

lemma groupInsert_keys (k : String) (t : Transaction)
    (g : List (String × List Transaction)) :
    (groupInsert k t g).map Prod.fst =
      if k ∈ g.map Prod.fst then g.map Prod.fst
      else g.map Prod.fst ++ [k] := by
  induction g with
  | nil => simp [groupInsert]
  | cons p rest ih =>
    obtain ⟨k', l⟩ := p
    by_cases h : k' = k
    · simp [groupInsert, h]
    · by_cases hm : k ∈ rest.map Prod.fst <;>
        simp [groupInsert, h, ih, hm, Ne.symm h]

lemma groupInsert_keys_nodup {k : String} {t : Transaction}
    {g : List (String × List Transaction)}
    (h : (g.map Prod.fst).Nodup) :
    ((groupInsert k t g).map Prod.fst).Nodup := by
  rw [groupInsert_keys]
  split_ifs with hm
  · exact h
  · simp [List.nodup_append, h, hm]

lemma groupInsert_agree {K : Transaction → String} {k : String}
    {t : Transaction} {g : List (String × List Transaction)}
    (h : ∀ p ∈ g, ∀ u ∈ p.2, K u = p.1) (hk : K t = k) :
    ∀ p ∈ groupInsert k t g, ∀ u ∈ p.2, K u = p.1 := by
  induction g with
  | nil =>
    intro p hp u hu
    simp only [groupInsert, List.mem_singleton] at hp
    subst hp
    simp only [List.mem_singleton] at hu
    subst hu
    exact hk
  | cons q rest ih =>
    obtain ⟨k', l⟩ := q
    by_cases hkk : k' = k
    · intro p hp u hu
      simp only [groupInsert, if_pos hkk, List.mem_cons] at hp
      rcases hp with hp | hp
      · subst hp
        simp only [List.mem_append, List.mem_singleton] at hu
        rcases hu with hu | hu
        · exact h (k', l) (List.mem_cons_self _ _) u hu
        · subst hu; rw [hk, hkk]
      · exact h p (List.mem_cons_of_mem _ hp) u hu
    · intro p hp u hu
      simp only [groupInsert, if_neg hkk, List.mem_cons] at hp
      rcases hp with hp | hp
      · subst hp
        exact h (k', l) (List.mem_cons_self _ _) u hu
      · exact ih (fun q hq => h q (List.mem_cons_of_mem _ hq)) p hp u hu

lemma groupFold_flatten (K : Transaction → String) (ts : List Transaction) :
    ∀ g : List (String × List Transaction),
    List.Perm
      (((ts.foldl (fun acc t => groupInsert (K t) t acc) g).map Prod.snd).flatten)
      ((g.map Prod.snd).flatten ++ ts) := by
  induction ts with
  | nil => intro g; simp
  | cons t ts ih =>
    intro g
    refine (ih (groupInsert (K t) t g)).trans ?_
    refine ((groupInsert_flatten (K t) t g).append_right ts).trans ?_
    rw [List.append_assoc]
    rfl

lemma groupFold_keys_nodup (K : Transaction → String) (ts : List Transaction) :
    ∀ g : List (String × List Transaction), (g.map Prod.fst).Nodup →
    (((ts.foldl (fun acc t => groupInsert (K t) t acc) g)).map Prod.fst).Nodup := by
  induction ts with
  | nil => intro g hg; exact hg
  | cons t ts ih =>
    intro g hg
    exact ih _ (groupInsert_keys_nodup hg)

lemma groupFold_agree (K : Transaction → String) (ts : List Transaction) :
    ∀ g : List (String × List Transaction),
    (∀ p ∈ g, ∀ u ∈ p.2, K u = p.1) →
    ∀ p ∈ ts.foldl (fun acc t => groupInsert (K t) t acc) g,
      ∀ u ∈ p.2, K u = p.1 := by
  induction ts with
  | nil => intro g hg; exact hg
  | cons t ts ih =>
    intro g hg
    exact ih _ (groupInsert_agree hg rfl)

lemma eq_of_fst_eq_of_nodup {g : List (String × List Transaction)}
    (h : (g.map Prod.fst).Nodup) :
    ∀ p ∈ g, ∀ q ∈ g, p.1 = q.1 → p = q := by
  induction g with
  | nil => intro p hp; simp at hp
  | cons a rest ih =>
    simp only [List.map_cons, List.nodup_cons] at h
    intro p hp q hq heq
    rcases List.mem_cons.mp hp with hp | hp <;>
      rcases List.mem_cons.mp hq with hq | hq
    · rw [hp, hq]
    · exfalso
      apply h.1
      rw [hp] at heq
      exact heq ▸ List.mem_map_of_mem Prod.fst hq
    · exfalso
      apply h.1
      rw [hq] at heq
      exact heq ▸ List.mem_map_of_mem Prod.fst hp
    · exact ih h.2 p hp q hq heq

/-- C2: for every transaction list and grouping mode (daily or weekly, for
any environment interpretation of local calendar days and key formatting),
`groupedTransactions` partitions its input: bucket keys are distinct, each
bucket holds exactly the transactions with its key, the buckets together
hold exactly the input transactions (no drop, no duplication), and every
input transaction lies in exactly one bucket. -/
theorem groupedTransactions_partition (localDay : String → Int)
    (fmt : Int → String) (mode : GroupingMode) (ts : List Transaction) :
    ((groupedTransactions localDay fmt mode ts).map Prod.fst).Nodup
    ∧ List.Perm
        (((groupedTransactions localDay fmt mode ts).map Prod.snd).flatten) ts
    ∧ (∀ p ∈ groupedTransactions localDay fmt mode ts, ∀ u ∈ p.2,
        bucketKey localDay fmt mode u = p.1)
    ∧ (∀ t ∈ ts, ∃ p, p ∈ groupedTransactions localDay fmt mode ts ∧ t ∈ p.2
        ∧ ∀ q ∈ groupedTransactions localDay fmt mode ts, t ∈ q.2 → q = p) := by
  have hnd : ((groupedTransactions localDay fmt mode ts).map Prod.fst).Nodup :=
    groupFold_keys_nodup (bucketKey localDay fmt mode) ts [] (by simp)
  have hperm : List.Perm
      (((groupedTransactions localDay fmt mode ts).map Prod.snd).flatten) ts := by
    have := groupFold_flatten (bucketKey localDay fmt mode) ts []
    simpa [groupedTransactions] using this
  have hagree : ∀ p ∈ groupedTransactions localDay fmt mode ts, ∀ u ∈ p.2,
      bucketKey localDay fmt mode u = p.1 :=
    groupFold_agree (bucketKey localDay fmt mode) ts [] (by simp)
  refine ⟨hnd, hperm, hagree, ?_⟩
  intro t ht
  have hmem : t ∈ ((groupedTransactions localDay fmt mode ts).map Prod.snd).flatten :=
    hperm.symm.subset ht
  rcases List.mem_flatten.mp hmem with ⟨l, hl, htl⟩
  rcases List.mem_map.mp hl with ⟨p, hp, hpl⟩
  refine ⟨p, hp, hpl ▸ htl, ?_⟩
  intro q hq htq
  apply eq_of_fst_eq_of_nodup hnd q hq p hp
  rw [← hagree q hq t htq, ← hagree p hp t (hpl ▸ htl)]

/-- Witness for `groupedTransactions_partition` at a concrete environment
and list. -/
theorem groupedTransactions_partition_witness :
    ((groupedTransactions (fun _ => 0) (fun _ => "k") GroupingMode.daily
        [{ id := "1", description := "x", amount := 1,
           type := TransactionType.INCOME, date := "2024-01-01",
           paymentMethod := PaymentMethod.CASH }]).map Prod.fst).Nodup := by
  exact (groupedTransactions_partition (fun _ => 0) (fun _ => "k")
    GroupingMode.daily _).1

-- === C4: DEBT SETTLEMENT ===

lemma foldl_add_amount (l : List Debt) : ∀ a : ℚ,
    l.foldl (fun sum d => sum + d.amount) a = a + (l.map Debt.amount).sum := by
  induction l with
  | nil => intro a; simp
  | cons d l ih => intro a; simp [ih]; ring

lemma totalUnpaidDebts_eq (l : List Debt) :
    totalUnpaidDebts l =
      ((l.filter (fun d => decide (d.status = DebtStatus.UNPAID))).map
        Debt.amount).sum := by
  unfold totalUnpaidDebts
  rw [foldl_add_amount]
  ring

lemma totalUnpaidDebts_append (a b : List Debt) :
    totalUnpaidDebts (a ++ b) = totalUnpaidDebts a + totalUnpaidDebts b := by
  simp [totalUnpaidDebts_eq, List.filter_append]

lemma totalUnpaidDebts_cons (d : Debt) (l : List Debt) :
    totalUnpaidDebts (d :: l) =
      (if d.status = DebtStatus.UNPAID then d.amount else 0)
        + totalUnpaidDebts l := by
  by_cases h : d.status = DebtStatus.UNPAID <;>
    simp [totalUnpaidDebts_eq, List.filter_cons, h]

lemma find_debt_decomp (debts : List Debt) (debtId : String) (debt : Debt)
    (h : debts.find? (fun d => decide (d.id = debtId)) = some debt)
    (hnd : (debts.map Debt.id).Nodup) :
    debt.id = debtId ∧ ∃ l₁ l₂, debts = l₁ ++ debt :: l₂ ∧
      debts.map (fun d =>
          if d.id = debt.id then { d with status := DebtStatus.PAID } else d)
        = l₁ ++ ({ debt with status := DebtStatus.PAID }) :: l₂ := by
  induction debts with
  | nil => simp at h
  | cons d ds ih =>
    simp only [List.map_cons, List.nodup_cons] at hnd
    by_cases hd : d.id = debtId
    · rw [List.find?_cons_of_pos _ (by simpa using hd)] at h
      have hdd : d = debt := by injection h
      subst hdd
      refine ⟨hd, [], ds, by simp, ?_⟩
      have hds : ds.map (fun e =>
          if e.id = d.id then { e with status := DebtStatus.PAID } else e)
            = ds := by
        have hcongr : ∀ e ∈ ds, (if e.id = d.id then
            { e with status := DebtStatus.PAID } else e) = id e := by
          intro e he
          have hne : ¬ e.id = d.id := fun hcon =>
            hnd.1 (hcon ▸ List.mem_map_of_mem Debt.id he)
          rw [if_neg hne]
          rfl
        rw [List.map_congr_left hcongr, List.map_id]
      simp [List.map_cons, List.nil_append, hds]
    · rw [List.find?_cons_of_neg _ (by simpa using hd)] at h
      obtain ⟨hid, l₁, l₂, hdec, hmap⟩ := ih h hnd.2
      refine ⟨hid, d :: l₁, l₂, by simp [hdec], ?_⟩
      simp only [List.map_cons, List.cons_append, List.cons.injEq]
      refine ⟨?_, hmap⟩
      rw [if_neg]
      rw [hid]
      exact hd

/-- C4: settling a debt through `settleDebt` with a found debt of amount
`A` (honouring the data-model invariants: the found debt is `UNPAID` and
debt ids are unique) marks exactly that debt `PAID`, leaves every other
debt unchanged in place, prepends exactly one new transaction of type
`INCOME` with `amount = A` and the caller-supplied payment method, and
decreases `totalUnpaidDebts` by exactly `A`; when no debt has the given
id, neither the transaction list nor the debt list changes. -/
theorem settleDebt_spec (debtId : String) (M : PaymentMethod)
    (newId nowDate : String) (transactions : List Transaction)
    (debts : List Debt) :
    (debts.find? (fun d => decide (d.id = debtId)) = none →
      settleDebt debtId M newId nowDate transactions debts
        = (transactions, debts))
    ∧ (∀ debt, debts.find? (fun d => decide (d.id = debtId)) = some debt →
        debt.status = DebtStatus.UNPAID →
        (debts.map Debt.id).Nodup →
        (settleDebt debtId M newId nowDate transactions debts).1
            = settleTransaction newId nowDate debt M :: transactions
        ∧ (settleTransaction newId nowDate debt M).type = TransactionType.INCOME
        ∧ (settleTransaction newId nowDate debt M).amount = debt.amount
        ∧ (settleTransaction newId nowDate debt M).paymentMethod = M
        ∧ (∃ l₁ l₂, debts = l₁ ++ debt :: l₂ ∧
            (settleDebt debtId M newId nowDate transactions debts).2
              = l₁ ++ ({ debt with status := DebtStatus.PAID }) :: l₂)
        ∧ totalUnpaidDebts (settleDebt debtId M newId nowDate transactions debts).2
            = totalUnpaidDebts debts - debt.amount) := by
  constructor
  · intro h
    unfold settleDebt
    rw [h]
  · intro debt h hU hnd
    obtain ⟨hid, l₁, l₂, hdec, hmap⟩ := find_debt_decomp debts debtId debt h hnd
    have hfst : (settleDebt debtId M newId nowDate transactions debts).1
        = settleTransaction newId nowDate debt M :: transactions := by
      unfold settleDebt; rw [h]
    have hsnd : (settleDebt debtId M newId nowDate transactions debts).2
        = l₁ ++ ({ debt with status := DebtStatus.PAID }) :: l₂ := by
      unfold settleDebt; rw [h]; exact hmap
    refine ⟨hfst, rfl, rfl, rfl, ⟨l₁, l₂, hdec, hsnd⟩, ?_⟩
    rw [hsnd, hdec, totalUnpaidDebts_append, totalUnpaidDebts_append,
      totalUnpaidDebts_cons, totalUnpaidDebts_cons]
    have hpaid : ({ debt with status := DebtStatus.PAID } : Debt).status
        = DebtStatus.PAID := rfl
    rw [hpaid, hU]
    simp
    ring

/-- Witness for `settleDebt_spec`: settling the only (unpaid, amount 7)
debt by cash removes its amount from the unpaid total and prepends the
settlement income transaction. -/
theorem settleDebt_spec_witness :
    totalUnpaidDebts
        (settleDebt "d1" PaymentMethod.CASH "t1" "2024-02-02" []
          [{ id := "d1", clientName := "Ali", description := "flowers",
             amount := 7, status := DebtStatus.UNPAID, date := "2024-01-01",
             notes := none }]).2
      = totalUnpaidDebts
          [{ id := "d1", clientName := "Ali", description := "flowers",
             amount := 7, status := DebtStatus.UNPAID, date := "2024-01-01",
             notes := none }] - 7 :=
  ((settleDebt_spec "d1" PaymentMethod.CASH "t1" "2024-02-02" [] _).2
    { id := "d1", clientName := "Ali", description := "flowers",
      amount := 7, status := DebtStatus.UNPAID, date := "2024-01-01",
      notes := none }
    (by decide) rfl (by decide)).2.2.2.2.2

-- === C10: TRANSACTION DELETION ===

/-- C10: deleting a transaction by id removes exactly the transactions
carrying that id: the result is a sublist of the input (relative order of
the survivors preserved), every transaction with a different id keeps its
exact multiplicity, every transaction with the deleted id is gone, and
the debt collection is untouched. -/
theorem deleteTransaction_spec (deleteId : String)
    (transactions : List Transaction) (debts : List Debt) :
    (deleteTransaction deleteId transactions debts).2 = debts
    ∧ (deleteTransaction deleteId transactions debts).1.Sublist transactions
    ∧ ∀ t : Transaction,
        (deleteTransaction deleteId transactions debts).1.count t
          = if t.id = deleteId then 0 else transactions.count t := by
  refine ⟨rfl, List.filter_sublist _, ?_⟩
  intro t
  by_cases h : t.id = deleteId
  · rw [if_pos h, List.count_eq_zero]
    intro hmem
    have := (List.mem_filter.mp hmem).2
    simp [h] at this
  · rw [if_neg h]
    exact List.count_filter (by simpa using h)

-- === C7: FILTER IDEMPOTENCE AND CLEARED FILTERS ===

lemma filter_absorb {α : Type} (p q : α → Bool) (l : List α) :
    ((l.filter q).filter p).filter q = (l.filter q).filter p := by
  apply List.filter_eq_self.mpr
  intro a ha
  exact (List.mem_filter.mp (List.mem_filter.mp ha).1).2

lemma filter_self_eq {α : Type} (p : α → Bool) (l : List α) :
    (l.filter p).filter p = l.filter p := by
  apply List.filter_eq_self.mpr
  intro a ha
  exact (List.mem_filter.mp ha).2

lemma transactionPasses_cleared (s : FilterSettings) (t : Transaction) :
    transactionPasses (clearFilters s) t = true := rfl

/-- Counterexample to C7 as stated: with every filter cleared through
`handleClearFilters`, a bank transaction is still dropped while the cash
account view is active, so the original list is not restored. -/
theorem clearFilters_not_restorative :
    filteredTransactions
        (clearFilters
          { activeView := ActiveView.transactions,
            activeAccountView := PaymentMethod.CASH, searchTerm := "s",
            filterType := FilterTypeSetting.only TransactionType.INCOME,
            startDate := "2024-01-01", endDate := "2024-01-02" })
        [{ id := "1", description := "x", amount := 1,
           type := TransactionType.INCOME, date := "2024-01-01",
           paymentMethod := PaymentMethod.BANK }]
      ≠ [{ id := "1", description := "x", amount := 1,
           type := TransactionType.INCOME, date := "2024-01-01",
           paymentMethod := PaymentMethod.BANK }] := by
  decide

/-- C7 (amended): the transaction filter is idempotent for every filter
setting, and with all filters cleared (empty search, type `'all'`, empty
date bounds — the state `handleClearFilters` produces) it returns the
input restricted to the active account scope, which is the original list
in its original order exactly when no specific account view applies
(`activeView ≠ 'transactions'`).  (The account scope survives
`handleClearFilters`, so the original list is not restored while an
account view is active; mutation of the source list is not representable
in this functional model.) -/
theorem filteredTransactions_idempotent_cleared (s : FilterSettings)
    (ts : List Transaction) :
    filteredTransactions s (filteredTransactions s ts) = filteredTransactions s ts
    ∧ filteredTransactions (clearFilters s) ts
        = ts.filter (accountScopePasses s)
    ∧ (s.activeView ≠ ActiveView.transactions →
        filteredTransactions (clearFilters s) ts = ts) := by
  have hclear : filteredTransactions (clearFilters s) ts
      = ts.filter (accountScopePasses s) := by
    show (ts.filter (accountScopePasses s)).filter
        (transactionPasses (clearFilters s)) = ts.filter (accountScopePasses s)
    exact List.filter_eq_self.mpr fun a _ => transactionPasses_cleared s a
  refine ⟨?_, hclear, ?_⟩
  · show (((ts.filter (accountScopePasses s)).filter
        (transactionPasses s)).filter (accountScopePasses s)).filter
          (transactionPasses s)
      = (ts.filter (accountScopePasses s)).filter (transactionPasses s)
    rw [filter_absorb (transactionPasses s) (accountScopePasses s) ts,
      filter_self_eq]
  · intro h
    rw [hclear]
    apply List.filter_eq_self.mpr
    intro a _
    unfold accountScopePasses
    rw [if_neg h]

/-- Witness for `filteredTransactions_idempotent_cleared`: in the debts
view, clearing all filters restores the one-element list. -/
theorem filteredTransactions_idempotent_cleared_witness :
    filteredTransactions
        (clearFilters
          { activeView := ActiveView.debts,
            activeAccountView := PaymentMethod.CASH, searchTerm := "s",
            filterType := FilterTypeSetting.only TransactionType.INCOME,
            startDate := "2024-01-01", endDate := "2024-01-02" })
        [{ id := "1", description := "x", amount := 1,
           type := TransactionType.INCOME, date := "2024-01-01",
           paymentMethod := PaymentMethod.BANK }]
      = [{ id := "1", description := "x", amount := 1,
           type := TransactionType.INCOME, date := "2024-01-01",
           paymentMethod := PaymentMethod.BANK }] :=
  (filteredTransactions_idempotent_cleared
    { activeView := ActiveView.debts,
      activeAccountView := PaymentMethod.CASH, searchTerm := "s",
      filterType := FilterTypeSetting.only TransactionType.INCOME,
      startDate := "2024-01-01", endDate := "2024-01-02" } _).2.2 (by decide)

-- === C9: DIGIT-SCRIPT INVARIANCE OF SEARCH ===

/-- Two strings are digit-script equivalent when they agree character by
character up to the numeral table of `convertToEnglishNumerals` (so
`"١٢٣"`, `"۱۲۳"` and `"123"` are pairwise equivalent). -/
def digitScriptEquiv (a b : String) : Prop :=
  List.Forall₂ (fun c c' => numeralMapChar c = numeralMapChar c') a.data b.data

lemma map_eq_of_numeral_forall₂ {l l' : List Char}
    (h : List.Forall₂ (fun c c' => numeralMapChar c = numeralMapChar c') l l') :
    l.map numeralMapChar = l'.map numeralMapChar := by
  induction h with
  | nil => rfl
  | cons hc _ ih => simp [hc, ih]

lemma map_eq_of_digitScriptEquiv {a b : String} (h : digitScriptEquiv a b) :
    convertToEnglishNumerals a = convertToEnglishNumerals b := by
  unfold convertToEnglishNumerals
  congr 1
  exact map_eq_of_numeral_forall₂ h

/-- C9: the search predicate of `filteredTransactions` cannot distinguish
digit scripts: replacing ASCII digits by Arabic-Indic or
Extended-Arabic-Indic numerals (or vice versa), in the query or in the
candidate description, never changes the match outcome, because both
sides are normalized by `convertToEnglishNumerals` before the
case-insensitive substring test. -/
theorem searchMatches_digit_script_invariant (q q' d d' : String)
    (hq : digitScriptEquiv q q') (hd : digitScriptEquiv d d') :
    searchMatches q d = searchMatches q' d' := by
  unfold searchMatches
  rw [map_eq_of_digitScriptEquiv hq, map_eq_of_digitScriptEquiv hd]

/-- Witness for `searchMatches_digit_script_invariant`: searching
`"١٢٣"` behaves exactly like searching `"123"`, and in particular matches
the description `"abc123"`. -/
theorem searchMatches_digit_script_invariant_witness :
    searchMatches "١٢٣" "abc123" = searchMatches "123" "abc123"
    ∧ searchMatches "١٢٣" "abc123" = true := by
  have h := searchMatches_digit_script_invariant "١٢٣" "123" "abc123" "abc123"
    (List.Forall₂.cons (by decide)
      (List.Forall₂.cons (by decide)
        (List.Forall₂.cons (by decide) List.Forall₂.nil)))
    (List.forall₂_same.mpr (fun a _ => rfl))
  exact ⟨h, by rw [h]; decide⟩

-- === CSV CODEC (handleExport / handleImport) ===

/-- The whitespace characters relevant to `String.prototype.trim` on the
application's data (the rows it trims are ASCII CSV text). -/
def isJsSpaceChar (c : Char) : Bool :=
  c == ' ' || c == '\t' || c == '\n' || c == '\r'

/-- `trim()` on the underlying character list. -/
def trimChars (l : List Char) : List Char :=
  ((l.dropWhile isJsSpaceChar).reverse.dropWhile isJsSpaceChar).reverse

/-- `s.trim()` on a JavaScript string. -/
def jsTrim (s : String) : String :=
  String.mk (trimChars s.data)

/-- `s.split(sep)` for a one-character separator: splitting the empty
string yields `[""]`, and a trailing separator yields a trailing empty
piece, as in JavaScript. -/
def splitChar (c : Char) : List Char → List (List Char)
  | [] => [[]]
  | x :: xs =>
      if x = c then [] :: splitChar c xs
      else
        match splitChar c xs with
        | [] => [[x]]
        | y :: ys => (x :: y) :: ys

/-- `pieces.join(sep)` for a one-character separator. -/
def joinChar (c : Char) : List (List Char) → List Char
  | [] => []
  | [l] => l
  | l :: ls => l ++ c :: joinChar c ls

/-- `s.split(sep)` on JavaScript strings. -/
def jsSplit (c : Char) (s : String) : List String :=
  (splitChar c s.data).map String.mk

/-- `pieces.join(sep)` on JavaScript strings. -/
def joinStrings (c : Char) (ls : List String) : String :=
  String.mk (joinChar c (ls.map String.data))

/-- `s.replace(/"/g, '')`: removes every double-quote character. -/
def jsRemoveQuotes (s : String) : String :=
  String.mk (s.data.filter (fun c => !(c == '\"')))

/-- Doubling of internal quotes, `str.replace(/"/g, '""')`. -/
def doubleQuotes : List Char → List Char
  | [] => []
  | c :: rest =>
      if c = '\"' then '\"' :: '\"' :: doubleQuotes rest
      else c :: doubleQuotes rest

/-- `escapeCSV` from `handleExport`: a field containing a quote, comma,
newline or carriage return is wrapped in double quotes with internal
quotes doubled; any other field is emitted as is. -/
def escapeCSV (s : String) : String :=
  if s.data.any (fun c => c == '\"' || c == ',' || c == '\n' || c == '\r')
  then String.mk ('\"' :: doubleQuotes s.data ++ ['\"'])
  else s

/-- The fixed header columns of the CSV codec. -/
def csvHeaders : List String :=
  ["id", "description", "amount", "type", "paymentMethod", "date"]

/-- One data row of `handleExport`: every field is escaped except the
amount, which is emitted by the environment's number formatter `F`
(`t.amount.toString()`). -/
def csvRow (F : ℚ → String) (t : Transaction) : String :=
  joinStrings ','
    [escapeCSV t.id, escapeCSV t.description, F t.amount,
     escapeCSV (typeToString t.type), escapeCSV (pmToString t.paymentMethod),
     escapeCSV t.date]

/-- `handleExport`: with no transactions it alerts and produces no file
(`none`); otherwise it offers the joined header and data rows.  (The
byte-order mark prepended to the download is consumed by the UTF-8
decode on re-import and is not part of the text.) -/
def handleExport (F : ℚ → String) (transactions : List Transaction) :
    Option String :=
  if transactions.length = 0 then none
  else some (joinStrings '\n'
    (joinStrings ',' csvHeaders :: transactions.map (csvRow F)))

/-- The runtime shape of a transaction built by the import path: the
TypeScript `as` casts on `values[3]` and `values[4]` store the raw
strings unchecked. -/
structure RawTransaction where
  id : String
  description : String
  amount : ℚ
  type : String
  paymentMethod : String
  date : String
deriving DecidableEq, Repr

/-- The runtime value of a statically-typed transaction. -/
def toRaw (t : Transaction) : RawTransaction :=
  { id := t.id, description := t.description, amount := t.amount,
    type := typeToString t.type, paymentMethod := pmToString t.paymentMethod,
    date := t.date }

/-- One row of `handleImport`: naive comma-splitting, `parseFloat` on the
third field (`P`, the environment's parser; `none` models `NaN`),
quote-stripping on the description, and the row-level validation — id and
date nonempty and `type` a member of `Object.values(TransactionType)`;
`paymentMethod` is not checked. -/
def parseRow (P : String → Option ℚ) (row : String) : Option RawTransaction :=
  let values := jsSplit ',' row
  match P (values.getD 2 "") with
  | none => none
  | some amount =>
      let transaction : RawTransaction :=
        { id := values.getD 0 "",
          description := jsRemoveQuotes (values.getD 1 ""),
          amount := amount,
          type := values.getD 3 "",
          paymentMethod := values.getD 4 "",
          date := values.getD 5 "" }
      if transaction.id = "" ∨ transaction.date = ""
          ∨ ¬(transaction.type = "INCOME" ∨ transaction.type = "EXPENSE")
      then none
      else some transaction

/-- The user-visible outcome of `handleImport`: an empty file returns
before the try block (no alert at all); a structural failure alerts with
an error message; otherwise a success alert reports the number of parsed
rows alongside the parsed list. -/
inductive ImportResult where
  | silent
  | errorAlert (msg : String)
  | success (count : Nat) (imported : List RawTransaction)
deriving DecidableEq, Repr

/-- Whether the result is the blocking error alert. -/
def raisesErrorAlert : ImportResult → Bool
  | ImportResult.errorAlert _ => true
  | _ => false

/-- The header validation of `handleImport`:
`headers.length < 6 || headers[1] !== 'description' || headers[2] !== 'amount'`
rejects the file. -/
def validHeader (headerRow : String) : Bool :=
  let headers := (jsSplit ',' headerRow).map jsTrim
  !(decide (headers.length < 6) || !(headers.getD 1 "" == "description")
      || !(headers.getD 2 "" == "amount"))

/-- `handleImport` from `src/App.tsx` on the decoded file text. -/
def handleImport (P : String → Option ℚ) (text : String) : ImportResult :=
  if text = "" then ImportResult.silent
  else
    match (jsSplit '\n' text).filter (fun row => !(jsTrim row == "")) with
    | [] => ImportResult.errorAlert "ملف CSV فارغ أو غير صالح."
    | headerRow :: dataRows =>
        if !validHeader headerRow then
          ImportResult.errorAlert
            "صيغة ملف CSV غير صحيحة. يرجى استخدام ملف تم تصديره من هذا التطبيق."
        else
          let imported := dataRows.filterMap (parseRow P)
          ImportResult.success imported.length imported

/-- The `setTransactions` merge of `handleImport`: imported rows whose id
already exists in the store are discarded; the survivors are prepended. -/
def mergeImport (imported prev : List RawTransaction) : List RawTransaction :=
  let existingIds := prev.map RawTransaction.id
  (imported.filter (fun t => !(existingIds.contains t.id))) ++ prev

/-- The store change caused by an import outcome. -/
def applyImport (res : ImportResult) (prev : List RawTransaction) :
    List RawTransaction :=
  match res with
  | ImportResult.success _ imported => mergeImport imported prev
  | _ => prev

/-- A concrete instantiation of the environment's `parseFloat` parameter,
handling unsigned integer literals; used only to build concrete
examples. -/
def digitValChar (c : Char) : Option Nat :=
  if 48 ≤ c.toNat ∧ c.toNat ≤ 57 then some (c.toNat - 48) else none

/-- Digits-only string to a natural number (`none` on the empty string or
any non-digit). -/
def parseNatChars (l : List Char) : Option Nat :=
  match l with
  | [] => none
  | _ =>
      l.foldl (fun acc c =>
        match acc, digitValChar c with
        | some n, some d => some (n * 10 + d)
        | _, _ => none) (some 0)

/-- Concrete `parseFloat` instantiation for unsigned integer literals. -/
def parseNatQ (s : String) : Option ℚ :=
  (parseNatChars s.data).map (fun n => (n : ℚ))

/-- Concrete `Number.prototype.toString` instantiation for nonnegative
integer amounts. -/
def printNatQ (q : ℚ) : String :=
  Nat.repr q.num.toNat

-- === C3: EXPORT/IMPORT ROUND-TRIP ===

/-- A field is clean when it contains none of the characters that trigger
CSV escaping (quote, comma, newline, carriage return). -/
def cleanField (s : String) : Prop :=
  ∀ ch ∈ s.data, ch ≠ '\"' ∧ ch ≠ ',' ∧ ch ≠ '\n' ∧ ch ≠ '\r'

instance (s : String) : Decidable (cleanField s) :=
  List.decidableBAll _ s.data

/-- The weaker cleanliness sufficient for a description: no quote, comma
or newline.  A carriage return is allowed — it makes the exporter quote
the field, but the importer's quote-stripping on the description undoes
exactly that wrapping. -/
def descCleanField (s : String) : Prop :=
  ∀ ch ∈ s.data, ch ≠ '\"' ∧ ch ≠ ',' ∧ ch ≠ '\n'

instance (s : String) : Decidable (descCleanField s) :=
  List.decidableBAll _ s.data

lemma escapeCSV_eq_self {s : String} (h : cleanField s) : escapeCSV s = s := by
  have hany : s.data.any
      (fun c => c == '\"' || c == ',' || c == '\n' || c == '\r') = false := by
    rw [List.any_eq_false]
    intro c hc
    obtain ⟨h1, h2, h3, h4⟩ := h c hc
    simp [h1, h2, h3, h4]
  unfold escapeCSV
  rw [hany]
  simp

lemma jsRemoveQuotes_eq_self {s : String} (h : ∀ ch ∈ s.data, ch ≠ '\"') :
    jsRemoveQuotes s = s := by
  unfold jsRemoveQuotes
  rw [List.filter_eq_self.mpr (fun a ha => by simp [h a ha])]

lemma mem_doubleQuotes {x : Char} : ∀ {l : List Char},
    x ∈ doubleQuotes l → x = '\"' ∨ x ∈ l := by
  intro l
  induction l with
  | nil => intro h; simp [doubleQuotes] at h
  | cons c rest ih =>
    intro h
    by_cases hc : c = '\"'
    · simp only [doubleQuotes, if_pos hc] at h
      rcases List.mem_cons.mp h with rfl | h
      · exact Or.inl rfl
      · rcases List.mem_cons.mp h with rfl | h
        · exact Or.inl rfl
        · rcases ih h with h | h
          · exact Or.inl h
          · exact Or.inr (List.mem_cons_of_mem _ h)
    · simp only [doubleQuotes, if_neg hc] at h
      rcases List.mem_cons.mp h with rfl | h
      · exact Or.inr (List.mem_cons_self _ _)
      · rcases ih h with h | h
        · exact Or.inl h
        · exact Or.inr (List.mem_cons_of_mem _ h)

lemma mem_escapeCSV {s : String} {x : Char} (hx : x ∈ (escapeCSV s).data) :
    x = '\"' ∨ x ∈ s.data := by
  by_cases hcond : s.data.any
      (fun c => c == '\"' || c == ',' || c == '\n' || c == '\r') = true
  · unfold escapeCSV at hx
    rw [if_pos hcond] at hx
    have hx' : x ∈ '\"' :: (doubleQuotes s.data ++ ['\"']) := hx
    rcases List.mem_cons.mp hx' with rfl | hx'
    · exact Or.inl rfl
    · rcases List.mem_append.mp hx' with hx' | hx'
      · exact mem_doubleQuotes hx'
      · rw [List.mem_singleton] at hx'
        exact Or.inl hx'
  · unfold escapeCSV at hx
    rw [if_neg hcond] at hx
    exact Or.inr hx

lemma doubleQuotes_eq_self {l : List Char} (h : ∀ ch ∈ l, ch ≠ '\"') :
    doubleQuotes l = l := by
  induction l with
  | nil => rfl
  | cons c rest ih =>
    have hc : ¬ c = '\"' := h c (List.mem_cons_self _ _)
    simp only [doubleQuotes, if_neg hc]
    rw [ih (fun ch hch => h ch (List.mem_cons_of_mem _ hch))]

lemma jsRemoveQuotes_escapeCSV {s : String} (h : ∀ ch ∈ s.data, ch ≠ '\"') :
    jsRemoveQuotes (escapeCSV s) = s := by
  by_cases hcond : s.data.any
      (fun c => c == '\"' || c == ',' || c == '\n' || c == '\r') = true
  · unfold escapeCSV
    rw [if_pos hcond]
    show String.mk (('\"' :: (doubleQuotes s.data ++ ['\"'])).filter
      (fun c => !(c == '\"'))) = s
    rw [doubleQuotes_eq_self h, List.filter_cons, List.filter_append]
    rw [List.filter_eq_self.mpr (fun a ha => by simp [h a ha])]
    simp
  · unfold escapeCSV
    rw [if_neg hcond]
    exact jsRemoveQuotes_eq_self h

lemma typeToString_clean (ty : TransactionType) : cleanField (typeToString ty) := by
  cases ty <;> decide

lemma pmToString_clean (pm : PaymentMethod) : cleanField (pmToString pm) := by
  cases pm <;> decide

lemma splitChar_no_sep {c : Char} : ∀ {l : List Char}, c ∉ l →
    splitChar c l = [l] := by
  intro l
  induction l with
  | nil => intro _; rfl
  | cons x xs ih =>
    intro h
    rw [List.mem_cons, not_or] at h
    have hx : ¬ x = c := fun he => h.1 he.symm
    simp only [splitChar]
    rw [if_neg hx, ih h.2]

lemma splitChar_append_sep {c : Char} : ∀ {l : List Char} (rest : List Char),
    c ∉ l → splitChar c (l ++ c :: rest) = l :: splitChar c rest := by
  intro l
  induction l with
  | nil => intro rest _; simp [splitChar]
  | cons x xs ih =>
    intro rest h
    rw [List.mem_cons, not_or] at h
    have hx : ¬ x = c := fun he => h.1 he.symm
    simp only [List.cons_append, splitChar]
    rw [if_neg hx]
    have ih' : splitChar c (List.append xs (c :: rest)) = xs :: splitChar c rest :=
      ih rest h.2
    rw [ih']

lemma splitChar_joinChar {c : Char} : ∀ (ls : List (List Char)), ls ≠ [] →
    (∀ l ∈ ls, c ∉ l) → splitChar c (joinChar c ls) = ls := by
  intro ls
  induction ls with
  | nil => intro h; exact absurd rfl h
  | cons l ls ih =>
    intro _ hc
    cases ls with
    | nil =>
      simp only [joinChar]
      exact splitChar_no_sep (hc l (List.mem_cons_self _ _))
    | cons l' ls' =>
      simp only [joinChar]
      rw [splitChar_append_sep _ (hc l (List.mem_cons_self _ _))]
      rw [ih (by simp) (fun a ha => hc a (List.mem_cons_of_mem _ ha))]

lemma map_mk_data (ls : List String) :
    ls.map (String.mk ∘ String.data) = ls := by
  induction ls with
  | nil => rfl
  | cons a as ih =>
    simp only [List.map_cons, ih]
    rfl

lemma jsSplit_joinStrings {c : Char} (ls : List String) (h : ls ≠ [])
    (hc : ∀ s ∈ ls, c ∉ s.data) :
    jsSplit c (joinStrings c ls) = ls := by
  unfold jsSplit joinStrings
  rw [show (String.mk (joinChar c (ls.map String.data))).data
      = joinChar c (ls.map String.data) from rfl]
  rw [splitChar_joinChar (ls.map String.data) (by simpa using h) (by
    intro l hl
    rcases List.mem_map.mp hl with ⟨s, hs, rfl⟩
    exact hc s hs)]
  rw [List.map_map, map_mk_data]

lemma mem_joinChar {c x : Char} : ∀ {ls : List (List Char)},
    x ∈ joinChar c ls → x = c ∨ ∃ l ∈ ls, x ∈ l := by
  intro ls
  induction ls with
  | nil => intro h; simp [joinChar] at h
  | cons l ls ih =>
    cases ls with
    | nil =>
      intro h
      simp only [joinChar] at h
      exact Or.inr ⟨l, List.mem_cons_self _ _, h⟩
    | cons l' ls' =>
      intro h
      simp only [joinChar, List.mem_append, List.mem_cons] at h
      rcases h with h | h | h
      · exact Or.inr ⟨l, List.mem_cons_self _ _, h⟩
      · exact Or.inl h
      · rcases ih h with h | ⟨a, ha, hx⟩
        · exact Or.inl h
        · exact Or.inr ⟨a, List.mem_cons_of_mem _ ha, hx⟩

lemma sep_mem_joinChar {c : Char} (l l' : List Char) (ls : List (List Char)) :
    c ∈ joinChar c (l :: l' :: ls) := by
  simp [joinChar]

lemma exists_not_of_dropWhile {α : Type} {p : α → Bool} :
    ∀ {l : List α} {x : α}, x ∈ l → p x = false →
    ∃ y ∈ l.dropWhile p, p y = false := by
  intro l
  induction l with
  | nil => intro x h; simp at h
  | cons a as ih =>
    intro x hx hpx
    by_cases ha : p a = true
    · rw [List.dropWhile_cons_of_pos ha]
      rcases List.mem_cons.mp hx with rfl | hx'
      · rw [hpx] at ha; simp at ha
      · exact ih hx' hpx
    · rw [List.dropWhile_cons_of_neg ha]
      exact ⟨a, List.mem_cons_self _ _, by simpa using ha⟩

lemma trimChars_ne_nil {l : List Char} {x : Char} (hx : x ∈ l)
    (hnw : isJsSpaceChar x = false) : trimChars l ≠ [] := by
  unfold trimChars
  obtain ⟨y, hy, hpy⟩ := exists_not_of_dropWhile hx hnw
  obtain ⟨z, hz, _⟩ := exists_not_of_dropWhile (List.mem_reverse.mpr hy) hpy
  intro hcon
  rw [List.reverse_eq_nil_iff] at hcon
  exact absurd (hcon ▸ hz) (List.not_mem_nil z)

lemma jsTrim_ne_empty {s : String} {x : Char} (hx : x ∈ s.data)
    (hnw : isJsSpaceChar x = false) : jsTrim s ≠ "" := by
  intro hcon
  exact trimChars_ne_nil hx hnw (congrArg String.data hcon)

lemma filterMap_eq_map_of_forall {α β : Type} {f : α → Option β} {g : α → β} :
    ∀ {l : List α}, (∀ x ∈ l, f x = some (g x)) → l.filterMap f = l.map g := by
  intro l
  induction l with
  | nil => intro _; rfl
  | cons a as ih =>
    intro h
    simp [List.filterMap_cons, h a (List.mem_cons_self _ _),
      ih (fun x hx => h x (List.mem_cons_of_mem _ hx))]

lemma csvRow_plain (F : ℚ → String) (t : Transaction)
    (hid : cleanField t.id) (hdate : cleanField t.date) :
    csvRow F t = joinStrings ','
      [t.id, escapeCSV t.description, F t.amount, typeToString t.type,
       pmToString t.paymentMethod, t.date] := by
  unfold csvRow
  rw [escapeCSV_eq_self hid,
    escapeCSV_eq_self (typeToString_clean t.type),
    escapeCSV_eq_self (pmToString_clean t.paymentMethod),
    escapeCSV_eq_self hdate]

lemma mem_joinChar_head {c x : Char} {l : List Char} (ls : List (List Char))
    (hx : x ∈ l) : x ∈ joinChar c (l :: ls) := by
  cases ls with
  | nil => simpa [joinChar] using hx
  | cons l' ls' => simp [joinChar, hx]

lemma parseRow_csvRow (P : String → Option ℚ) (F : ℚ → String) (t : Transaction)
    (hid : cleanField t.id) (hdesc : descCleanField t.description)
    (hdate : cleanField t.date) (hidne : t.id ≠ "") (hdatene : t.date ≠ "")
    (hF : P (F t.amount) = some t.amount) (hFc : ',' ∉ (F t.amount).data) :
    parseRow P (csvRow F t) = some (toRaw t) := by
  have hsplit : jsSplit ',' (csvRow F t)
      = [t.id, escapeCSV t.description, F t.amount, typeToString t.type,
         pmToString t.paymentMethod, t.date] := by
    rw [csvRow_plain F t hid hdate]
    apply jsSplit_joinStrings _ (by simp)
    intro s hs
    simp only [List.mem_cons, List.not_mem_nil, or_false] at hs
    rcases hs with rfl | rfl | rfl | rfl | rfl | rfl
    · exact fun hci => (hid ',' hci).2.1 rfl
    · intro hci
      rcases mem_escapeCSV hci with h | h
      · exact absurd h (by decide)
      · exact (hdesc ',' h).2.1 rfl
    · exact hFc
    · exact fun hci => ((typeToString_clean t.type) ',' hci).2.1 rfl
    · exact fun hci => ((pmToString_clean t.paymentMethod) ',' hci).2.1 rfl
    · exact fun hci => (hdate ',' hci).2.1 rfl
  have hcond : ¬(t.id = "" ∨ t.date = ""
      ∨ ¬(typeToString t.type = "INCOME" ∨ typeToString t.type = "EXPENSE")) := by
    push_neg
    refine ⟨hidne, hdatene, ?_⟩
    cases t.type
    · exact Or.inl rfl
    · exact Or.inr rfl
  simp only [parseRow, hsplit, List.getD_cons_zero, List.getD_cons_succ, hF]
  rw [if_neg hcond]
  simp [toRaw, jsRemoveQuotes_escapeCSV (fun ch hch => (hdesc ch hch).1)]

/-- C3 (amended): exporting a nonempty transaction list and re-importing
the exported text into an empty store reproduces the list exactly — same
ids, descriptions, amounts, types, payment methods and dates — for every
list whose transactions have a nonempty id and date, whose descriptions
contain no comma, quote or newline, and whose id and date contain no
comma, quote, newline or carriage return (rows with such characters,
which the quoting exporter escapes but the naive comma/line-splitting
importer cannot undo, are excepted; a carriage return in a description is
harmless, since the quoting it triggers is undone by the importer's
quote-stripping on that field).  `F` and `P` are the environment's number
formatter and parser, assumed to round-trip each stored amount and to
emit no comma or newline. -/
theorem csv_roundtrip (F : ℚ → String) (P : String → Option ℚ)
    (ts : List Transaction) (hne : ts ≠ [])
    (hclean : ∀ t ∈ ts, cleanField t.id ∧ descCleanField t.description
      ∧ cleanField t.date)
    (hids : ∀ t ∈ ts, t.id ≠ "") (hdates : ∀ t ∈ ts, t.date ≠ "")
    (hP : ∀ t ∈ ts, P (F t.amount) = some t.amount)
    (hFcl : ∀ t ∈ ts, ',' ∉ (F t.amount).data ∧ '\n' ∉ (F t.amount).data) :
    handleExport F ts = some (joinStrings '\n'
        (joinStrings ',' csvHeaders :: ts.map (csvRow F)))
    ∧ handleImport P (joinStrings '\n'
        (joinStrings ',' csvHeaders :: ts.map (csvRow F)))
        = ImportResult.success ts.length (ts.map toRaw)
    ∧ applyImport (handleImport P (joinStrings '\n'
        (joinStrings ',' csvHeaders :: ts.map (csvRow F)))) []
        = ts.map toRaw := by
  have hexp : handleExport F ts = some (joinStrings '\n'
      (joinStrings ',' csvHeaders :: ts.map (csvRow F))) := by
    unfold handleExport
    rw [if_neg (by simpa using hne)]
  have hline_nonl : ∀ s ∈ joinStrings ',' csvHeaders :: ts.map (csvRow F),
      '\n' ∉ s.data := by
    intro s hs
    rcases List.mem_cons.mp hs with rfl | hs
    · decide
    · rcases List.mem_map.mp hs with ⟨t, ht, rfl⟩
      obtain ⟨h1, h2, h3⟩ := hclean t ht
      rw [csvRow_plain F t h1 h3]
      intro hmem
      rcases mem_joinChar hmem with hc | ⟨l, hl, hx⟩
      · exact absurd hc (by decide)
      · rcases List.mem_map.mp hl with ⟨fs, hfs, rfl⟩
        simp only [List.mem_cons, List.not_mem_nil, or_false] at hfs
        rcases hfs with rfl | rfl | rfl | rfl | rfl | rfl
        · exact (h1 '\n' hx).2.2.1 rfl
        · rcases mem_escapeCSV hx with h | h
          · exact absurd h (by decide)
          · exact (h2 '\n' h).2.2 rfl
        · exact (hFcl t ht).2 hx
        · exact ((typeToString_clean t.type) '\n' hx).2.2.1 rfl
        · exact ((pmToString_clean t.paymentMethod) '\n' hx).2.2.1 rfl
        · exact (h3 '\n' hx).2.2.1 rfl
  have hsplitlines : jsSplit '\n' (joinStrings '\n'
      (joinStrings ',' csvHeaders :: ts.map (csvRow F)))
      = joinStrings ',' csvHeaders :: ts.map (csvRow F) :=
    jsSplit_joinStrings _ (by simp) hline_nonl
  have htextne : joinStrings '\n'
      (joinStrings ',' csvHeaders :: ts.map (csvRow F)) ≠ "" := by
    intro hcon
    have hi : 'i' ∈ (joinStrings '\n'
        (joinStrings ',' csvHeaders :: ts.map (csvRow F))).data :=
      mem_joinChar_head _ (by decide)
    rw [hcon] at hi
    simp at hi
  have hfilter : (joinStrings ',' csvHeaders :: ts.map (csvRow F)).filter
      (fun row => !(jsTrim row == ""))
      = joinStrings ',' csvHeaders :: ts.map (csvRow F) := by
    apply List.filter_eq_self.mpr
    intro r hr
    have hrne : jsTrim r ≠ "" := by
      rcases List.mem_cons.mp hr with rfl | hr
      · exact jsTrim_ne_empty (x := 'i') (by decide) (by decide)
      · rcases List.mem_map.mp hr with ⟨t, ht, rfl⟩
        obtain ⟨h1, h2, h3⟩ := hclean t ht
        apply jsTrim_ne_empty (x := ',') ?_ (by decide)
        rw [csvRow_plain F t h1 h3]
        exact sep_mem_joinChar _ _ _
    simp [hrne]
  have hvalid : validHeader (joinStrings ',' csvHeaders) = true := by decide
  have hrows : (ts.map (csvRow F)).filterMap (parseRow P) = ts.map toRaw := by
    rw [List.filterMap_map]
    exact filterMap_eq_map_of_forall (fun t ht =>
      parseRow_csvRow P F t (hclean t ht).1 (hclean t ht).2.1 (hclean t ht).2.2
        (hids t ht) (hdates t ht) (hP t ht) (hFcl t ht).1)
  have himp : handleImport P (joinStrings '\n'
      (joinStrings ',' csvHeaders :: ts.map (csvRow F)))
      = ImportResult.success ts.length (ts.map toRaw) := by
    simp only [handleImport, htextne, if_false, hsplitlines, hfilter, hvalid,
      Bool.not_true, hrows, List.length_map, ite_false]
    simp
  refine ⟨hexp, himp, ?_⟩
  rw [himp]
  simp [applyImport, mergeImport]

/-- Counterexample to C3 as stated: a description containing a newline
(but no comma and no quote) does not round-trip — the exporter protects
it by quoting, but the importer splits the file on raw newlines, so both
resulting fragments are rejected and the re-imported store is empty
instead of containing the transaction. -/
theorem csv_roundtrip_counterexample :
    (∀ ch ∈ ("a\nb" : String).data, ch ≠ ',' ∧ ch ≠ '\"')
    ∧ applyImport
        (handleImport parseNatQ
          ((handleExport printNatQ
              [{ id := "1", description := "a\nb", amount := 5,
                 type := TransactionType.INCOME, date := "2024-01-01",
                 paymentMethod := PaymentMethod.CASH }]).getD ""))
        []
      = []
    ∧ [{ id := "1", description := "a\nb", amount := 5,
         type := TransactionType.INCOME, date := "2024-01-01",
         paymentMethod := PaymentMethod.CASH }].map toRaw ≠ [] :=
  ⟨by decide, by decide, by decide⟩

/-- Witness for `csv_roundtrip` at a concrete two-element list with the
integer formatter/parser pair; the second description contains a carriage
return (and no comma, quote or newline) and still round-trips. -/
theorem csv_roundtrip_witness :
    handleImport parseNatQ
        (joinStrings '\n' (joinStrings ',' csvHeaders ::
          [{ id := "1", description := "roses", amount := 5,
             type := TransactionType.INCOME, date := "2024-01-01",
             paymentMethod := PaymentMethod.CASH },
           { id := "2", description := "a\rb", amount := 3,
             type := TransactionType.EXPENSE, date := "2024-01-02",
             paymentMethod := PaymentMethod.BANK }].map (csvRow printNatQ)))
      = ImportResult.success 2
          ([{ id := "1", description := "roses", amount := 5,
              type := TransactionType.INCOME, date := "2024-01-01",
              paymentMethod := PaymentMethod.CASH },
            { id := "2", description := "a\rb", amount := 3,
              type := TransactionType.EXPENSE, date := "2024-01-02",
              paymentMethod := PaymentMethod.BANK }].map toRaw) :=
  (csv_roundtrip printNatQ parseNatQ _ (by decide) (by decide) (by decide)
    (by decide) (by decide) (by decide)).2.1

-- === C5: EMPTY AND HEADER-ONLY IMPORTS ===

/-- Counterexample to C5 as stated: a header-only file raises no
user-visible error — the import completes and reports success with zero
rows — and a completely empty file returns silently before the parsing
block, also without any error; zero rows are applied either way. -/
theorem import_header_only_counterexample :
    handleImport parseNatQ "id,description,amount,type,paymentMethod,date"
        = ImportResult.success 0 []
    ∧ raisesErrorAlert (handleImport parseNatQ
        "id,description,amount,type,paymentMethod,date") = false
    ∧ handleImport parseNatQ "" = ImportResult.silent
    ∧ raisesErrorAlert (handleImport parseNatQ "") = false
    ∧ applyImport (handleImport parseNatQ
        "id,description,amount,type,paymentMethod,date") [] = [] :=
  ⟨by decide, by decide, by decide, by decide, by decide⟩

/-- C5 (amended): a completely empty file is ignored silently (no alert of
any kind); a nonempty file with no non-blank line raises the error alert;
a header-only file (one non-blank line, a valid header) completes with a
success report of zero imported rows; and in the silent, error and
zero-row outcomes alike the store is left unchanged — zero rows
applied. -/
theorem import_degenerate_inputs (P : String → Option ℚ) (text : String)
    (prev : List RawTransaction) :
    (text = "" → handleImport P text = ImportResult.silent)
    ∧ (∀ headerRow, text ≠ "" →
        (jsSplit '\n' text).filter (fun row => !(jsTrim row == ""))
          = [headerRow] →
        validHeader headerRow = true →
        handleImport P text = ImportResult.success 0 [])
    ∧ (text ≠ "" →
        (jsSplit '\n' text).filter (fun row => !(jsTrim row == "")) = [] →
        handleImport P text
          = ImportResult.errorAlert "ملف CSV فارغ أو غير صالح.")
    ∧ applyImport ImportResult.silent prev = prev
    ∧ (∀ msg, applyImport (ImportResult.errorAlert msg) prev = prev)
    ∧ applyImport (ImportResult.success 0 []) prev = prev := by
  refine ⟨?_, ?_, ?_, rfl, fun msg => rfl, ?_⟩
  · intro h
    simp [handleImport, h]
  · intro hr hne hsplit hvalid
    simp [handleImport, hne, hsplit, hvalid]
  · intro hne hsplit
    simp [handleImport, hne, hsplit]
  · simp [applyImport, mergeImport]

/-- Witness for `import_degenerate_inputs` at the concrete exported
header line. -/
theorem import_degenerate_inputs_witness :
    handleImport parseNatQ "id,description,amount,type,paymentMethod,date"
      = ImportResult.success 0 [] :=
  (import_degenerate_inputs parseNatQ
      "id,description,amount,type,paymentMethod,date" []).2.1
    "id,description,amount,type,paymentMethod,date"
    (by decide) (by decide) (by decide)

-- === C6: ENUMERATION VALIDATION ON IMPORT ===

lemma parseRow_type_valid {P : String → Option ℚ} {row : String}
    {r : RawTransaction} (h : parseRow P row = some r) :
    r.type = "INCOME" ∨ r.type = "EXPENSE" := by
  simp only [parseRow] at h
  split at h
  · exact absurd h (by simp)
  · split at h
    · exact absurd h (by simp)
    · rename_i hcond
      rw [not_or, not_or, not_not] at hcond
      injection h with h
      rw [← h]
      exact hcond.2.2

/-- Counterexample to C6 as stated: a row whose `paymentMethod` field is
`"FOO"` — not a member of the `PaymentMethod` enumeration — is not
rejected: the import stores it unchanged, because only `type` is
validated. -/
theorem import_pm_not_validated_counterexample :
    handleImport parseNatQ
        "id,description,amount,type,paymentMethod,date\nx1,d,5,INCOME,FOO,2024-01-01"
      = ImportResult.success 1
          [{ id := "x1", description := "d", amount := 5, type := "INCOME",
             paymentMethod := "FOO", date := "2024-01-01" }]
    ∧ ({ id := "x1", description := "d", amount := 5, type := "INCOME",
         paymentMethod := "FOO", date := "2024-01-01" } :
          RawTransaction).paymentMethod ≠ "CASH"
    ∧ ({ id := "x1", description := "d", amount := 5, type := "INCOME",
         paymentMethod := "FOO", date := "2024-01-01" } :
          RawTransaction).paymentMethod ≠ "BANK" :=
  ⟨by decide, by decide, by decide⟩

/-- C6 (amended): every transaction added to the store by the import path
has `type` in `{INCOME, EXPENSE}` — a row whose `type` field is not one of
those values is skipped rather than stored — so after applying any
successful import every stored transaction either was already in the
store or carries a valid `type`; the `paymentMethod` field, by contrast,
is stored without validation. -/
theorem import_type_enum_invariant (P : String → Option ℚ) (text : String)
    (n : Nat) (l : List RawTransaction)
    (h : handleImport P text = ImportResult.success n l)
    (prev : List RawTransaction) (r : RawTransaction)
    (hr : r ∈ applyImport (ImportResult.success n l) prev) :
    r ∈ prev ∨ (r.type = "INCOME" ∨ r.type = "EXPENSE") := by
  simp only [applyImport, mergeImport, List.mem_append] at hr
  rcases hr with hr | hr
  · right
    have hrl : r ∈ l := (List.mem_filter.mp hr).1
    unfold handleImport at h
    split at h
    · exact absurd h (by simp)
    · split at h
      · exact absurd h (by simp)
      · split at h
        · exact absurd h (by simp)
        · rw [ImportResult.success.injEq] at h
          rw [← h.2] at hrl
          rcases List.mem_filterMap.mp hrl with ⟨row, _, hrow⟩
          exact parseRow_type_valid hrow
  · exact Or.inl hr

/-- Witness for `import_type_enum_invariant` at a concrete import into an
empty store. -/
theorem import_type_enum_invariant_witness :
    ({ id := "x1", description := "d", amount := 5, type := "INCOME",
       paymentMethod := "CASH", date := "2024-01-01" } : RawTransaction)
        ∈ ([] : List RawTransaction)
    ∨ (({ id := "x1", description := "d", amount := 5, type := "INCOME",
          paymentMethod := "CASH", date := "2024-01-01" } :
            RawTransaction).type = "INCOME"
       ∨ ({ id := "x1", description := "d", amount := 5, type := "INCOME",
            paymentMethod := "CASH", date := "2024-01-01" } :
              RawTransaction).type = "EXPENSE") :=
  import_type_enum_invariant parseNatQ
    "id,description,amount,type,paymentMethod,date\nx1,d,5,INCOME,CASH,2024-01-01"
    1
    [{ id := "x1", description := "d", amount := 5, type := "INCOME",
       paymentMethod := "CASH", date := "2024-01-01" }]
    (by decide) []
    { id := "x1", description := "d", amount := 5, type := "INCOME",
      paymentMethod := "CASH", date := "2024-01-01" }
    (by decide)
